import Mathlib

/-!
# Verification of the Lennard-Jones notebook

The repository is a single Python notebook
(`interaction_between_two_atoms/lennard-jones-equation.ipynb`) that

1. converts the well depth `epsilon = 0.0103 eV` to joules (`convert_to_j`),
2. evaluates the Lennard-Jones potential `4ε((σ/r)^12 − (σ/r)^6)` at six
   fixed distances (`lennard_jones`),
3. scans the six results for the smallest value and its index
   (`compare_values`), and
4. scales the minimum by `10^21` and rounds it to two decimals for display.

The notebook computes with Python `float`s, i.e. IEEE-754 binary64.  We embed
that arithmetic shallowly over `ℚ`: every binary64 value in the normal
range of the program is an exact rational, and every arithmetic step of CPython
(`*`, `-`, `/`, `pow`, literal parsing, `round`) produces the correctly
rounded (round-to-nearest, ties-to-even, 53-bit significand) result of the
exact rational operation.  `fl : ℚ → ℚ` below is exactly that rounding map.
Exponent overflow and subnormals are not modelled: every value occurring in
this program lies between `10^-28` and `10^21` in magnitude, far inside the
normal binary64 range, where rounding is precision-53
round-to-nearest-even and nothing else.
-/

namespace LJNotebook

/-- The rational number `2 ^ k`, for an integer exponent `k`. -/
def qpow2 (k : ℤ) : ℚ := (2 : ℚ) ^ k

/-- First guess for the binary exponent of `q`: the difference of the bit
lengths of numerator and denominator.  It is always `⌊log₂ q⌋` or one more. -/
def ratLog2Guess (q : ℚ) : ℤ :=
  (Nat.log2 q.num.natAbs : ℤ) - (Nat.log2 q.den : ℤ)

/-- Floor of the base-2 logarithm for a positive rational `q`, computed by correcting the
bit-length guess. -/
def ratLog2 (q : ℚ) : ℤ :=
  if qpow2 (ratLog2Guess q + 1) ≤ q then ratLog2Guess q + 1
  else if q < qpow2 (ratLog2Guess q) then ratLog2Guess q - 1
  else ratLog2Guess q

/-- Round a rational to the nearest integer, ties going to the even
integer (the IEEE-754 default rounding). -/
def rne (x : ℚ) : ℤ :=
  if x < (⌊x⌋ : ℚ) + 1 / 2 then ⌊x⌋
  else if (⌊x⌋ : ℚ) + 1 / 2 < x then ⌊x⌋ + 1
  else if ⌊x⌋ % 2 = 0 then ⌊x⌋ else ⌊x⌋ + 1

/-- Round a positive rational to 53 significant binary digits,
round-to-nearest ties-to-even. -/
def flPos (q : ℚ) : ℚ :=
  (rne (q / qpow2 (ratLog2 q - 52)) : ℚ) * qpow2 (ratLog2 q - 52)

/-- The binary64 rounding map: `fl q` is the IEEE-754 double nearest to `q`
(ties to even), represented as an exact rational.  Values of the program all
lie in the normal range, so the exponent field is unconstrained here. -/
def fl (q : ℚ) : ℚ :=
  if q = 0 then 0 else if q < 0 then -flPos (-q) else flPos q

/-- Binary64 multiplication: exact product, then one rounding. -/
def fmul (a b : ℚ) : ℚ := fl (a * b)

/-- Binary64 subtraction: exact difference, then one rounding. -/
def fsub (a b : ℚ) : ℚ := fl (a - b)

/-- Binary64 division: exact quotient, then one rounding. -/
def fdiv (a b : ℚ) : ℚ := fl (a / b)

/-- Binary64 `pow` with a natural exponent: exact power, then one rounding
(libm `pow` is correctly rounded on all inputs this program uses). -/
def fpow (a : ℚ) (n : ℕ) : ℚ := fl (a ^ n)

/-! ## The program of the notebook

Each definition below is translated from the code cells of
`lennard-jones-equation.ipynb`, with every Python float operation replaced by
its exact-rational counterpart followed by the binary64 rounding `fl`. -/

/-- The function `convert_to_j(value) = value * 1.602176634 * pow(10, -19)`.
The literal `1.602176634` and the result of `pow(10, -19)` are the binary64
values of those decimals (CPython parses literals and computes `pow`
correctly rounded), and each of the two multiplications rounds once. -/
def convert_to_j (value : ℚ) : ℚ :=
  fmul (fmul value (fl (1602176634 / 10 ^ 9))) (fl (1 / 10 ^ 19))

/-- The body of `lennard_jones`:
`(4 * epsilon) * (pow(sigma/distance, 12) - pow(sigma/distance, 6))`,
with one binary64 rounding per operation, exactly as Python evaluates it. -/
def lj (epsilon sigma distance : ℚ) : ℚ :=
  fmul (fmul 4 epsilon)
    (fsub (fpow (fdiv sigma distance) 12) (fpow (fdiv sigma distance) 6))

/-- The function `lennard_jones(epsilon, sigma, distance)`.  Python raises
`ZeroDivisionError` when `distance` is zero, modelled by `none`; otherwise the
function returns the rounded value of the Lennard-Jones formula. -/
def lennard_jones (epsilon sigma distance : ℚ) : Option ℚ :=
  if distance = 0 then none else some (lj epsilon sigma distance)

/-- The loop of `compare_values`: `for n in range(len(values)):
if values[n] < sol: sol = values[n]; i = n`, written as structural recursion
with the current candidate `sol`, its recorded index `i`, and the position `n`
of the next element. -/
def compareAux : List ℚ → ℚ → ℕ → ℕ → ℚ × ℕ
  | [], sol, i, _ => (sol, i)
  | v :: rest, sol, i, n =>
    if v < sol then compareAux rest v n (n + 1) else compareAux rest sol i (n + 1)

/-- The function `compare_values(values)`: scan the list with the candidate
minimum set to `0` and the index set to `0`, returning `(sol, i)`. -/
def compare_values (values : List ℚ) : ℚ × ℕ :=
  compareAux values 0 0 0

/-- The literal `epsilon = 0.0103` as a binary64 value. -/
def epsilon0 : ℚ := fl (103 / 10 ^ 4)

/-- The literal `sigma = 3.40` as a binary64 value. -/
def sigma : ℚ := fl (17 / 5)

/-- The value of `epsilon` after the reassignment `epsilon = convert_to_j(epsilon)`. -/
def epsilonJ : ℚ := convert_to_j epsilon0

/-- The literal `distance1 = 3.0` as a binary64 value. -/
def distance1 : ℚ := fl 3

/-- The literal `distance2 = 3.4` as a binary64 value. -/
def distance2 : ℚ := fl (17 / 5)

/-- The literal `distance3 = 3.8` as a binary64 value. -/
def distance3 : ℚ := fl (19 / 5)

/-- The literal `distance4 = 4.2` as a binary64 value. -/
def distance4 : ℚ := fl (21 / 5)

/-- The literal `distance5 = 4.6` as a binary64 value. -/
def distance5 : ℚ := fl (23 / 5)

/-- The literal `distance6 = 5.0` as a binary64 value. -/
def distance6 : ℚ := fl 5

/-- The value `v1 = lennard_jones(epsilon, sigma, distance1)` (the division succeeds). -/
def v1 : ℚ := lj epsilonJ sigma distance1

/-- The value `v2 = lennard_jones(epsilon, sigma, distance2)`. -/
def v2 : ℚ := lj epsilonJ sigma distance2

/-- The value `v3 = lennard_jones(epsilon, sigma, distance3)`. -/
def v3 : ℚ := lj epsilonJ sigma distance3

/-- The value `v4 = lennard_jones(epsilon, sigma, distance4)`. -/
def v4 : ℚ := lj epsilonJ sigma distance4

/-- The value `v5 = lennard_jones(epsilon, sigma, distance5)`. -/
def v5 : ℚ := lj epsilonJ sigma distance5

/-- The value `v6 = lennard_jones(epsilon, sigma, distance6)`. -/
def v6 : ℚ := lj epsilonJ sigma distance6

/-- The list `[v1, v2, v3, v4, v5, v6]` passed to `compare_values`. -/
def vList : List ℚ := [v1, v2, v3, v4, v5, v6]

/-- The CPython builtin `round(x, 2)` on a float: the exact value of `x` is rounded to
two decimal digits (round-half-even, as `float.__round__` does via its
correctly rounded decimal conversion), and the resulting decimal is parsed
back to the nearest binary64 value. -/
def py_round2 (x : ℚ) : ℚ := fl ((rne (x * 100) : ℚ) / 100)

/-- The product `lowest * pow(10, 21)`: `pow(10, 21)` is an exact integer, converted to
binary64 (exactly) when multiplied by the float `lowest`, with one rounding. -/
def lowestScaled : ℚ := fmul (compare_values vList).1 (fl (10 ^ 21))

/-- The displayed value `lowest = round(lowest * pow(10, 21), 2)`. -/
def lowestRounded : ℚ := py_round2 lowestScaled

/-! ## Basic facts about the rounding map -/

theorem qpow2_eq_zpow (k : ℤ) : qpow2 k = (2 : ℚ) ^ k := rfl

theorem qpow2_pos (k : ℤ) : 0 < qpow2 k := by
  rw [qpow2_eq_zpow]
  positivity

theorem qpow2_lt_qpow2 {k l : ℤ} (h : k < l) : qpow2 k < qpow2 l := by
  rw [qpow2_eq_zpow, qpow2_eq_zpow]
  exact (zpow_lt_zpow_iff_right₀ (by norm_num)).mpr h

theorem lt_of_qpow2_lt {k l : ℤ} (h : qpow2 k < qpow2 l) : k < l := by
  rw [qpow2_eq_zpow, qpow2_eq_zpow] at h
  exact (zpow_lt_zpow_iff_right₀ (by norm_num)).mp h

/-- Correctness of `ratLog2`: if `2 ^ e ≤ q < 2 ^ (e+1)` then `ratLog2 q = e`. -/
theorem ratLog2_eq {q : ℚ} {e : ℤ} (hq : 0 < q)
    (h1 : qpow2 e ≤ q) (h2 : q < qpow2 (e + 1)) : ratLog2 q = e := by
  have hnum : 0 < q.num := Rat.num_pos.mpr hq
  have hden : 0 < (q.den : ℤ) := Int.ofNat_pos.mpr q.pos
  have hnumAbs : q.num.natAbs ≠ 0 := by
    intro h
    omega
  have hdenAbs : q.den ≠ 0 := q.den_nz
  -- bit-length bounds on numerator and denominator
  have hn1 : 2 ^ Nat.log2 q.num.natAbs ≤ q.num.natAbs := Nat.log2_self_le hnumAbs
  have hn2 : q.num.natAbs < 2 ^ (Nat.log2 q.num.natAbs + 1) := Nat.lt_log2_self
  have hd1 : 2 ^ Nat.log2 q.den ≤ q.den := Nat.log2_self_le hdenAbs
  have hd2 : q.den < 2 ^ (Nat.log2 q.den + 1) := Nat.lt_log2_self
  set a := Nat.log2 q.num.natAbs with ha
  set b := Nat.log2 q.den with hb
  have hg : ratLog2Guess q = (a : ℤ) - (b : ℤ) := rfl
  -- lift the bounds to ℚ
  have hqden : (0 : ℚ) < (q.den : ℚ) := by exact_mod_cast hden
  have hnumQ : ((q.num.natAbs : ℚ)) = (q.num : ℚ) := by
    rw [Int.cast_natAbs, abs_of_nonneg]
    exact_mod_cast le_of_lt hnum
  have hqval : q = (q.num : ℚ) / (q.den : ℚ) := (Rat.num_div_den q).symm
  have hn1Q : (2 : ℚ) ^ (a : ℤ) ≤ (q.num : ℚ) := by
    rw [← hnumQ, zpow_natCast]
    exact_mod_cast hn1
  have hn2Q : (q.num : ℚ) < (2 : ℚ) ^ ((a : ℤ) + 1) := by
    rw [← hnumQ]
    have : ((a : ℤ) + 1) = ((a + 1 : ℕ) : ℤ) := by push_cast; ring
    rw [this, zpow_natCast]
    exact_mod_cast hn2
  have hd1Q : (2 : ℚ) ^ (b : ℤ) ≤ (q.den : ℚ) := by
    rw [zpow_natCast]
    exact_mod_cast hd1
  have hd2Q : (q.den : ℚ) < (2 : ℚ) ^ ((b : ℤ) + 1) := by
    have : ((b : ℤ) + 1) = ((b + 1 : ℕ) : ℤ) := by push_cast; ring
    rw [this, zpow_natCast]
    exact_mod_cast hd2
  -- 2 ^ (g - 1) < q < 2 ^ (g + 1) for the guess g = a - b
  have hqlow : qpow2 ((a : ℤ) - (b : ℤ) - 1) < q := by
    rw [qpow2_eq_zpow, hqval]
    rw [lt_div_iff₀ hqden]
    calc (2:ℚ) ^ ((a : ℤ) - (b : ℤ) - 1) * (q.den : ℚ)
        < (2:ℚ) ^ ((a : ℤ) - (b : ℤ) - 1) * (2 : ℚ) ^ ((b : ℤ) + 1) := by
          exact mul_lt_mul_of_pos_left hd2Q (by positivity)
      _ = (2:ℚ) ^ (a : ℤ) := by
          rw [← zpow_add₀ (by norm_num : (2:ℚ) ≠ 0)]
          ring_nf
      _ ≤ (q.num : ℚ) := hn1Q
  have hqhigh : q < qpow2 ((a : ℤ) - (b : ℤ) + 1) := by
    rw [qpow2_eq_zpow, hqval]
    rw [div_lt_iff₀ hqden]
    calc (q.num : ℚ) < (2:ℚ) ^ ((a : ℤ) + 1) := hn2Q
      _ = (2:ℚ) ^ ((a : ℤ) - (b : ℤ) + 1) * (2 : ℚ) ^ (b : ℤ) := by
          rw [← zpow_add₀ (by norm_num : (2:ℚ) ≠ 0)]
          ring_nf
      _ ≤ (2:ℚ) ^ ((a : ℤ) - (b : ℤ) + 1) * (q.den : ℚ) := by
          exact mul_le_mul_of_nonneg_left hd1Q (by positivity)
  -- hence the guess is e or e + 1
  have he1 : e ≤ (a : ℤ) - (b : ℤ) := by
    have : qpow2 e < qpow2 ((a : ℤ) - (b : ℤ) + 1) := lt_of_le_of_lt h1 hqhigh
    have := lt_of_qpow2_lt this
    omega
  have he2 : (a : ℤ) - (b : ℤ) ≤ e + 1 := by
    have : qpow2 ((a : ℤ) - (b : ℤ) - 1) < qpow2 (e + 1) := lt_trans hqlow h2
    have := lt_of_qpow2_lt this
    omega
  unfold ratLog2
  rw [hg]
  rcases (by omega : (a : ℤ) - (b : ℤ) = e ∨ (a : ℤ) - (b : ℤ) = e + 1) with hcase | hcase
  · rw [hcase, if_neg (not_le.mpr h2), if_neg (not_lt.mpr h1)]
  · rw [hcase]
    have hfirst : ¬ qpow2 (e + 1 + 1) ≤ q :=
      not_le.mpr (lt_trans h2 (qpow2_lt_qpow2 (by omega)))
    rw [if_neg hfirst, if_pos h2]
    ring

/-- Correctness of `rne`: an integer strictly within half a unit of `x` is
the round-to-nearest result (the tie case cannot satisfy the strict bounds). -/
theorem rne_eq {x : ℚ} {m : ℤ} (h1 : (m : ℚ) - 1 / 2 < x) (h2 : x < (m : ℚ) + 1 / 2) :
    rne x = m := by
  unfold rne
  rcases le_or_lt (m : ℚ) x with hge | hlt
  · have hfloor : ⌊x⌋ = m := by
      rw [Int.floor_eq_iff]
      constructor
      · exact hge
      · linarith
    rw [hfloor, if_pos (by linarith)]
  · have hfloor : ⌊x⌋ = m - 1 := by
      rw [Int.floor_eq_iff]
      constructor
      · push_cast
        linarith
      · push_cast
        linarith
    rw [hfloor]
    rw [if_neg (by push_cast; intro hcon; linarith), if_pos (by push_cast; linarith)]
    omega

/-- A half-integer tie from below rounds to the even integer above it. -/
theorem rne_tie_low {x : ℚ} {m : ℤ} (hx : x = (m : ℚ) - 1 / 2) (he : m % 2 = 0) :
    rne x = m := by
  subst hx
  have hfloor : ⌊(m : ℚ) - 1 / 2⌋ = m - 1 := by
    rw [Int.floor_eq_iff]
    constructor
    · push_cast
      linarith
    · push_cast
      linarith
  unfold rne
  rw [hfloor]
  rw [if_neg (by push_cast; linarith), if_neg (by push_cast; linarith),
    if_neg (by omega)]
  omega

/-- A half-integer tie from above rounds to the even integer below it. -/
theorem rne_tie_high {x : ℚ} {m : ℤ} (hx : x = (m : ℚ) + 1 / 2) (he : m % 2 = 0) :
    rne x = m := by
  subst hx
  have hfloor : ⌊(m : ℚ) + 1 / 2⌋ = m := by
    rw [Int.floor_eq_iff]
    constructor
    · linarith
    · linarith
  unfold rne
  rw [hfloor]
  rw [if_neg (by linarith), if_neg (by linarith), if_pos he]

theorem fl_zero : fl 0 = 0 := by
  simp [fl]

/-- Characterization of `fl` on positive inputs, given the exponent of `q` and
the rounded 53-bit significand. -/
theorem fl_eq_pos_of_rne {q : ℚ} {m e : ℤ} (hq : 0 < q)
    (h1 : qpow2 e ≤ q) (h2 : q < qpow2 (e + 1))
    (h3 : rne (q / qpow2 (e - 52)) = m) :
    fl q = (m : ℚ) * qpow2 (e - 52) := by
  unfold fl flPos
  rw [if_neg (ne_of_gt hq), if_neg (not_lt.mpr (le_of_lt hq))]
  rw [ratLog2_eq hq h1 h2, h3]

/-- Characterization of `fl` on positive inputs: if `e` is the exponent of `q`
and `m` is within half a unit of `q · 2^(52−e)`, then `fl q = m · 2^(e−52)`. -/
theorem fl_eq_pos {q : ℚ} {m e : ℤ} (hq : 0 < q)
    (h1 : qpow2 e ≤ q) (h2 : q < qpow2 (e + 1))
    (h3 : (m : ℚ) - 1 / 2 < q / qpow2 (e - 52)) (h4 : q / qpow2 (e - 52) < (m : ℚ) + 1 / 2) :
    fl q = (m : ℚ) * qpow2 (e - 52) :=
  fl_eq_pos_of_rne hq h1 h2 (rne_eq h3 h4)

/-- The map `fl` commutes with negation. -/
theorem fl_neg (q : ℚ) : fl (-q) = -fl q := by
  rcases lt_trichotomy q 0 with h | h | h
  · have hC : q ≠ 0 := ne_of_lt h
    have hA : -q ≠ 0 := by simpa using hC
    have hB : ¬(-q < 0) := by linarith
    unfold fl
    rw [if_neg hA, if_neg hB, if_neg hC, if_pos h, neg_neg]
  · rw [h]
    norm_num [fl]
  · have hC : q ≠ 0 := ne_of_gt h
    have hA : -q ≠ 0 := by simpa using hC
    have hB : -q < 0 := by linarith
    have hD : ¬(q < 0) := not_lt.mpr (le_of_lt h)
    unfold fl
    rw [if_neg hA, if_pos hB, if_neg hC, if_neg hD, neg_neg]

/-- Characterization of `fl` on negative inputs, by symmetry. -/
theorem fl_eq_neg_of_rne {q : ℚ} {m e : ℤ} (hq : q < 0)
    (h1 : qpow2 e ≤ -q) (h2 : -q < qpow2 (e + 1))
    (h3 : rne (-q / qpow2 (e - 52)) = m) :
    fl q = -((m : ℚ) * qpow2 (e - 52)) := by
  have h := fl_eq_pos_of_rne (by linarith : (0:ℚ) < -q) h1 h2 h3
  rw [← neg_neg q, fl_neg, h]

/-- Characterization of `fl` on negative inputs away from ties. -/
theorem fl_eq_neg {q : ℚ} {m e : ℤ} (hq : q < 0)
    (h1 : qpow2 e ≤ -q) (h2 : -q < qpow2 (e + 1))
    (h3 : (m : ℚ) - 1 / 2 < -q / qpow2 (e - 52)) (h4 : -q / qpow2 (e - 52) < (m : ℚ) + 1 / 2) :
    fl q = -((m : ℚ) * qpow2 (e - 52)) :=
  fl_eq_neg_of_rne hq h1 h2 (rne_eq h3 h4)

/-! ## Concrete binary64 evaluations

Each lemma below certifies one rounding step of the computation in the notebook:
the argument of `fl` is the exact rational input of the step, and the
right-hand side is the exact rational value of the binary64 result, verified
through `fl_eq_pos`/`fl_eq_neg` (or the tie lemmas where the discarded part
is exactly half an ulp). -/

/-- Binary64 value of the literal `0.0103`. -/
theorem fl_eps0 : fl (103 / 10 ^ 4) = 2968772874362631 / 2 ^ 58 := by
  rw [fl_eq_pos (q := 103 / 10 ^ 4) (m := 5937545748725262) (e := -7) (by norm_num) (by norm_num [qpow2])
    (by norm_num [qpow2]) (by norm_num [qpow2]) (by norm_num [qpow2])]
  norm_num [qpow2]

/-- Binary64 value of the literal `1.602176634`. -/
theorem fl_convFactor : fl (1602176634 / 10 ^ 9) = 1803890522966029 / 2 ^ 50 := by
  rw [fl_eq_pos (q := 1602176634 / 10 ^ 9) (m := 7215562091864116) (e := 0) (by norm_num) (by norm_num [qpow2])
    (by norm_num [qpow2]) (by norm_num [qpow2]) (by norm_num [qpow2])]
  norm_num [qpow2]

/-- Binary64 value of `pow(10, -19)` (correctly rounded `10^-19`). -/
theorem fl_p19 : fl (1 / 10 ^ 19) = 2076918743413931 / 2 ^ 114 := by
  rw [fl_eq_pos (q := 1 / 10 ^ 19) (m := 8307674973655724) (e := -64) (by norm_num) (by norm_num [qpow2])
    (by norm_num [qpow2]) (by norm_num [qpow2]) (by norm_num [qpow2])]
  norm_num [qpow2]

/-- Binary64 value of the literal `3.40`. -/
theorem fl_sigma_lit : fl (17 / 5) = 7656119366529843 / 2 ^ 51 := by
  rw [fl_eq_pos (q := 17 / 5) (m := 7656119366529843) (e := 1) (by norm_num) (by norm_num [qpow2])
    (by norm_num [qpow2]) (by norm_num [qpow2]) (by norm_num [qpow2])]
  norm_num [qpow2]

/-- Binary64 value of the literal `3.8`. -/
theorem fl_d3_lit : fl (19 / 5) = 4278419646001971 / 2 ^ 50 := by
  rw [fl_eq_pos (q := 19 / 5) (m := 8556839292003942) (e := 1) (by norm_num) (by norm_num [qpow2])
    (by norm_num [qpow2]) (by norm_num [qpow2]) (by norm_num [qpow2])]
  norm_num [qpow2]

/-- Binary64 value of the literal `4.2`. -/
theorem fl_d4_lit : fl (21 / 5) = 4728779608739021 / 2 ^ 50 := by
  rw [fl_eq_pos (q := 21 / 5) (m := 4728779608739021) (e := 2) (by norm_num) (by norm_num [qpow2])
    (by norm_num [qpow2]) (by norm_num [qpow2]) (by norm_num [qpow2])]
  norm_num [qpow2]

/-- Binary64 value of the literal `4.6`. -/
theorem fl_d5_lit : fl (23 / 5) = 2589569785738035 / 2 ^ 49 := by
  rw [fl_eq_pos (q := 23 / 5) (m := 5179139571476070) (e := 2) (by norm_num) (by norm_num [qpow2])
    (by norm_num [qpow2]) (by norm_num [qpow2]) (by norm_num [qpow2])]
  norm_num [qpow2]

/-- Binary64 value of the literal `3.0` (exact). -/
theorem fl_d1_lit : fl (3) = 3 := by
  rw [fl_eq_pos (q := 3) (m := 6755399441055744) (e := 1) (by norm_num) (by norm_num [qpow2])
    (by norm_num [qpow2]) (by norm_num [qpow2]) (by norm_num [qpow2])]
  norm_num [qpow2]

/-- Binary64 value of the literal `5.0` (exact). -/
theorem fl_d6_lit : fl (5) = 5 := by
  rw [fl_eq_pos (q := 5) (m := 5629499534213120) (e := 2) (by norm_num) (by norm_num [qpow2])
    (by norm_num [qpow2]) (by norm_num [qpow2]) (by norm_num [qpow2])]
  norm_num [qpow2]

/-- First multiplication inside `convert_to_j` applied to `epsilon`. -/
theorem fl_conv_step1 : fl ((2968772874362631 / 2 ^ 58) * (1803890522966029 / 2 ^ 50)) = 4756498530956825 / 2 ^ 58 := by
  rw [fl_eq_pos (q := (2968772874362631 / 2 ^ 58) * (1803890522966029 / 2 ^ 50)) (m := 4756498530956825) (e := -6) (by norm_num) (by norm_num [qpow2])
    (by norm_num [qpow2]) (by norm_num [qpow2]) (by norm_num [qpow2])]
  norm_num [qpow2]

/-- Second multiplication inside `convert_to_j` applied to `epsilon`. -/
theorem fl_conv_step2 : fl ((4756498530956825 / 2 ^ 58) * (2076918743413931 / 2 ^ 114)) = 137096736074275 / 2 ^ 116 := by
  rw [fl_eq_pos (q := (4756498530956825 / 2 ^ 58) * (2076918743413931 / 2 ^ 114)) (m := 8774191108753600) (e := -70) (by norm_num) (by norm_num [qpow2])
    (by norm_num [qpow2]) (by norm_num [qpow2]) (by norm_num [qpow2])]
  norm_num [qpow2]

/-- Idempotence: `fl` is the identity on the already-representable conversion factor. -/
theorem fl_conv_idem : fl (1803890522966029 / 2 ^ 50) = 1803890522966029 / 2 ^ 50 := by
  rw [fl_eq_pos (q := 1803890522966029 / 2 ^ 50) (m := 7215562091864116) (e := 0) (by norm_num) (by norm_num [qpow2])
    (by norm_num [qpow2]) (by norm_num [qpow2]) (by norm_num [qpow2])]
  norm_num [qpow2]

/-- Second multiplication inside `convert_to_j` applied to `1.0`. -/
theorem fl_conv_one2 : fl ((1803890522966029 / 2 ^ 50) * (2076918743413931 / 2 ^ 114)) = 1663795340707221 / 2 ^ 113 := by
  rw [fl_eq_pos (q := (1803890522966029 / 2 ^ 50) * (2076918743413931 / 2 ^ 114)) (m := 6655181362828884) (e := -63) (by norm_num) (by norm_num [qpow2])
    (by norm_num [qpow2]) (by norm_num [qpow2]) (by norm_num [qpow2])]
  norm_num [qpow2]

/-- Binary64 value of the literal `1.602176634e-19`. -/
theorem fl_c5_direct : fl (1602176634 / 10 ^ 28) = 6655181362828883 / 2 ^ 115 := by
  rw [fl_eq_pos (q := 1602176634 / 10 ^ 28) (m := 6655181362828883) (e := -63) (by norm_num) (by norm_num [qpow2])
    (by norm_num [qpow2]) (by norm_num [qpow2]) (by norm_num [qpow2])]
  norm_num [qpow2]

/-- The product `4 * epsilon` in `lennard_jones` (exactly representable). -/
theorem fl_fourEps : fl (4 * (137096736074275 / 2 ^ 116)) = 137096736074275 / 2 ^ 114 := by
  rw [fl_eq_pos (q := 4 * (137096736074275 / 2 ^ 116)) (m := 8774191108753600) (e := -68) (by norm_num) (by norm_num [qpow2])
    (by norm_num [qpow2]) (by norm_num [qpow2]) (by norm_num [qpow2])]
  norm_num [qpow2]

/-- The rounded ratio `sigma / distance1`. -/
theorem fl_ratio1 : fl ((7656119366529843 / 2 ^ 51) / (3)) = 2552039788843281 / 2 ^ 51 := by
  rw [fl_eq_pos (q := (7656119366529843 / 2 ^ 51) / (3)) (m := 5104079577686562) (e := 0) (by norm_num) (by norm_num [qpow2])
    (by norm_num [qpow2]) (by norm_num [qpow2]) (by norm_num [qpow2])]
  norm_num [qpow2]

/-- The power `pow(sigma/distance1, 12)`, correctly rounded. -/
theorem fl_pow12_1 : fl ((2552039788843281 / 2 ^ 51) ^ 12) = 2527910742168343 / 2 ^ 49 := by
  rw [fl_eq_pos (q := (2552039788843281 / 2 ^ 51) ^ 12) (m := 5055821484336686) (e := 2) (by norm_num) (by norm_num [qpow2])
    (by norm_num [qpow2]) (by norm_num [qpow2]) (by norm_num [qpow2])]
  norm_num [qpow2]

/-- The power `pow(sigma/distance1, 6)`, correctly rounded. -/
theorem fl_pow6_1 : fl ((2552039788843281 / 2 ^ 51) ^ 6) = 4771728801274277 / 2 ^ 51 := by
  rw [fl_eq_pos (q := (2552039788843281 / 2 ^ 51) ^ 6) (m := 4771728801274277) (e := 1) (by norm_num) (by norm_num [qpow2])
    (by norm_num [qpow2]) (by norm_num [qpow2]) (by norm_num [qpow2])]
  norm_num [qpow2]

/-- The difference of the two powers for `distance1`. -/
theorem fl_diff1 : fl ((2527910742168343 / 2 ^ 49) - (4771728801274277 / 2 ^ 51)) = 5339914167399095 / 2 ^ 51 := by
  rw [fl_eq_pos (q := (2527910742168343 / 2 ^ 49) - (4771728801274277 / 2 ^ 51)) (m := 5339914167399095) (e := 1) (by norm_num) (by norm_num [qpow2])
    (by norm_num [qpow2]) (by norm_num [qpow2]) (by norm_num [qpow2])]
  norm_num [qpow2]

/-- The final product: the potential at `distance1`. -/
theorem fl_v1 : fl ((137096736074275 / 2 ^ 114) * (5339914167399095 / 2 ^ 51)) = 5201775389218679 / 2 ^ 118 := by
  rw [fl_eq_pos (q := (137096736074275 / 2 ^ 114) * (5339914167399095 / 2 ^ 51)) (m := 5201775389218679) (e := -66) (by norm_num) (by norm_num [qpow2])
    (by norm_num [qpow2]) (by norm_num [qpow2]) (by norm_num [qpow2])]
  norm_num [qpow2]

/-- The notebook reference value for `distance1` as a binary64 value. -/
theorem fl_ref1 : fl (15653523415738785 / 10 ^ 36) = 5201775389218679 / 2 ^ 118 := by
  rw [fl_eq_pos (q := 15653523415738785 / 10 ^ 36) (m := 5201775389218679) (e := -66) (by norm_num) (by norm_num [qpow2])
    (by norm_num [qpow2]) (by norm_num [qpow2]) (by norm_num [qpow2])]
  norm_num [qpow2]

/-- The rounded ratio `sigma / distance3`. -/
theorem fl_ratio3 : fl ((7656119366529843 / 2 ^ 51) / (4278419646001971 / 2 ^ 50)) = 8059073017399835 / 2 ^ 53 := by
  rw [fl_eq_pos (q := (7656119366529843 / 2 ^ 51) / (4278419646001971 / 2 ^ 50)) (m := 8059073017399835) (e := -1) (by norm_num) (by norm_num [qpow2])
    (by norm_num [qpow2]) (by norm_num [qpow2]) (by norm_num [qpow2])]
  norm_num [qpow2]

/-- The power `pow(sigma/distance3, 12)`, correctly rounded. -/
theorem fl_pow12_3 : fl ((8059073017399835 / 2 ^ 53) ^ 12) = 4742022507294693 / 2 ^ 54 := by
  rw [fl_eq_pos (q := (8059073017399835 / 2 ^ 53) ^ 12) (m := 4742022507294693) (e := -2) (by norm_num) (by norm_num [qpow2])
    (by norm_num [qpow2]) (by norm_num [qpow2]) (by norm_num [qpow2])]
  norm_num [qpow2]

/-- The power `pow(sigma/distance3, 6)`, correctly rounded. -/
theorem fl_pow6_3 : fl ((8059073017399835 / 2 ^ 53) ^ 6) = 4621273720180929 / 2 ^ 53 := by
  rw [fl_eq_pos (q := (8059073017399835 / 2 ^ 53) ^ 6) (m := 4621273720180929) (e := -1) (by norm_num) (by norm_num [qpow2])
    (by norm_num [qpow2]) (by norm_num [qpow2]) (by norm_num [qpow2])]
  norm_num [qpow2]

/-- The difference of the two powers for `distance3`. -/
theorem fl_diff3 : fl ((4742022507294693 / 2 ^ 54) - (4621273720180929 / 2 ^ 53)) = -(4500524933067165 / 2 ^ 54) := by
  rw [fl_eq_neg (q := (4742022507294693 / 2 ^ 54) - (4621273720180929 / 2 ^ 53)) (m := 9001049866134330) (e := -3) (by norm_num) (by norm_num [qpow2])
    (by norm_num [qpow2]) (by norm_num [qpow2]) (by norm_num [qpow2])]
  norm_num [qpow2]

/-- The final product: the potential at `distance3`. -/
theorem fl_v3 : fl ((137096736074275 / 2 ^ 114) * (-(4500524933067165 / 2 ^ 54))) = -(8768200799301031 / 2 ^ 122) := by
  rw [fl_eq_neg (q := (137096736074275 / 2 ^ 114) * (-(4500524933067165 / 2 ^ 54))) (m := 8768200799301031) (e := -70) (by norm_num) (by norm_num [qpow2])
    (by norm_num [qpow2]) (by norm_num [qpow2]) (by norm_num [qpow2])]
  norm_num [qpow2]

/-- The notebook reference value for `distance3` as a binary64 value. -/
theorem fl_ref3 : fl (-(16491152810326125 / 10 ^ 37)) = -(8768200799301031 / 2 ^ 122) := by
  rw [fl_eq_neg (q := -(16491152810326125 / 10 ^ 37)) (m := 8768200799301031) (e := -70) (by norm_num) (by norm_num [qpow2])
    (by norm_num [qpow2]) (by norm_num [qpow2]) (by norm_num [qpow2])]
  norm_num [qpow2]

/-- The rounded ratio `sigma / distance4`. -/
theorem fl_ratio4 : fl ((7656119366529843 / 2 ^ 51) / (4728779608739021 / 2 ^ 50)) = 7291542253837945 / 2 ^ 53 := by
  rw [fl_eq_pos (q := (7656119366529843 / 2 ^ 51) / (4728779608739021 / 2 ^ 50)) (m := 7291542253837945) (e := -1) (by norm_num) (by norm_num [qpow2])
    (by norm_num [qpow2]) (by norm_num [qpow2]) (by norm_num [qpow2])]
  norm_num [qpow2]

/-- The power `pow(sigma/distance4, 12)`, correctly rounded. -/
theorem fl_pow12_4 : fl ((7291542253837945 / 2 ^ 53) ^ 12) = 5707360128113899 / 2 ^ 56 := by
  rw [fl_eq_pos (q := (7291542253837945 / 2 ^ 53) ^ 12) (m := 5707360128113899) (e := -4) (by norm_num) (by norm_num [qpow2])
    (by norm_num [qpow2]) (by norm_num [qpow2]) (by norm_num [qpow2])]
  norm_num [qpow2]

/-- The power `pow(sigma/distance4, 6)`, correctly rounded. -/
theorem fl_pow6_4 : fl ((7291542253837945 / 2 ^ 53) ^ 6) = 5069878198363643 / 2 ^ 54 := by
  rw [fl_eq_pos (q := (7291542253837945 / 2 ^ 53) ^ 6) (m := 5069878198363643) (e := -2) (by norm_num) (by norm_num [qpow2])
    (by norm_num [qpow2]) (by norm_num [qpow2]) (by norm_num [qpow2])]
  norm_num [qpow2]

/-- The difference of the two powers for `distance4`. -/
theorem fl_diff4 : fl ((5707360128113899 / 2 ^ 56) - (5069878198363643 / 2 ^ 54)) = -(56922471348987 / 2 ^ 48) := by
  rw [fl_eq_neg_of_rne (q := (5707360128113899 / 2 ^ 56) - (5069878198363643 / 2 ^ 54)) (m := 7286076332670336) (e := -3) (by norm_num) (by norm_num [qpow2])
    (by norm_num [qpow2]) (rne_tie_high (by norm_num [qpow2]) (by norm_num))]
  norm_num [qpow2]

/-- The final product: the potential at `distance4`. -/
theorem fl_v4 : fl ((137096736074275 / 2 ^ 114) * (-(56922471348987 / 2 ^ 48))) = -(887199011143315 / 2 ^ 119) := by
  rw [fl_eq_neg (q := (137096736074275 / 2 ^ 114) * (-(56922471348987 / 2 ^ 48))) (m := 7097592089146520) (e := -70) (by norm_num) (by norm_num [qpow2])
    (by norm_num [qpow2]) (by norm_num [qpow2]) (by norm_num [qpow2])]
  norm_num [qpow2]

/-- The notebook reference value for `distance4` as a binary64 value. -/
theorem fl_ref4 : fl (-(13349087048372307 / 10 ^ 37)) = -(887199011143315 / 2 ^ 119) := by
  rw [fl_eq_neg (q := -(13349087048372307 / 10 ^ 37)) (m := 7097592089146520) (e := -70) (by norm_num) (by norm_num [qpow2])
    (by norm_num [qpow2]) (by norm_num [qpow2]) (by norm_num [qpow2])]
  norm_num [qpow2]

/-- The rounded ratio `sigma / distance5`. -/
theorem fl_ratio5 : fl ((7656119366529843 / 2 ^ 51) / (2589569785738035 / 2 ^ 49)) = 6657495101330299 / 2 ^ 53 := by
  rw [fl_eq_pos (q := (7656119366529843 / 2 ^ 51) / (2589569785738035 / 2 ^ 49)) (m := 6657495101330299) (e := -1) (by norm_num) (by norm_num [qpow2])
    (by norm_num [qpow2]) (by norm_num [qpow2]) (by norm_num [qpow2])]
  norm_num [qpow2]

/-- The power `pow(sigma/distance5, 12)`, correctly rounded. -/
theorem fl_pow12_5 : fl ((6657495101330299 / 2 ^ 53) ^ 12) = 239465412571875 / 2 ^ 53 := by
  rw [fl_eq_pos (q := (6657495101330299 / 2 ^ 53) ^ 12) (m := 7662893202300000) (e := -6) (by norm_num) (by norm_num [qpow2])
    (by norm_num [qpow2]) (by norm_num [qpow2]) (by norm_num [qpow2])]
  norm_num [qpow2]

/-- The power `pow(sigma/distance5, 6)`, correctly rounded. -/
theorem fl_pow6_5 : fl ((6657495101330299 / 2 ^ 53) ^ 6) = 5874572577682413 / 2 ^ 55 := by
  rw [fl_eq_pos (q := (6657495101330299 / 2 ^ 53) ^ 6) (m := 5874572577682413) (e := -3) (by norm_num) (by norm_num [qpow2])
    (by norm_num [qpow2]) (by norm_num [qpow2]) (by norm_num [qpow2])]
  norm_num [qpow2]

/-- The difference of the two powers for `distance5`. -/
theorem fl_diff5 : fl ((239465412571875 / 2 ^ 53) - (5874572577682413 / 2 ^ 55)) = -(4916710927394913 / 2 ^ 55) := by
  rw [fl_eq_neg (q := (239465412571875 / 2 ^ 53) - (5874572577682413 / 2 ^ 55)) (m := 4916710927394913) (e := -3) (by norm_num) (by norm_num [qpow2])
    (by norm_num [qpow2]) (by norm_num [qpow2]) (by norm_num [qpow2])]
  norm_num [qpow2]

/-- The final product: the potential at `distance5`. -/
theorem fl_v5 : fl ((137096736074275 / 2 ^ 114) * (-(4916710927394913 / 2 ^ 55))) = -(2394760018257231 / 2 ^ 121) := by
  rw [fl_eq_neg (q := (137096736074275 / 2 ^ 114) * (-(4916710927394913 / 2 ^ 55))) (m := 4789520036514462) (e := -70) (by norm_num) (by norm_num [qpow2])
    (by norm_num [qpow2]) (by norm_num [qpow2]) (by norm_num [qpow2])]
  norm_num [qpow2]

/-- The notebook reference value for `distance5` as a binary64 value. -/
theorem fl_ref5 : fl (-(900808599371665 / 10 ^ 36)) = -(2394760018257231 / 2 ^ 121) := by
  rw [fl_eq_neg (q := -(900808599371665 / 10 ^ 36)) (m := 4789520036514462) (e := -70) (by norm_num) (by norm_num [qpow2])
    (by norm_num [qpow2]) (by norm_num [qpow2]) (by norm_num [qpow2])]
  norm_num [qpow2]

/-- The rounded ratio `sigma / distance6`. -/
theorem fl_ratio6 : fl ((7656119366529843 / 2 ^ 51) / (5)) = 3062447746611937 / 2 ^ 52 := by
  rw [fl_eq_pos (q := (7656119366529843 / 2 ^ 51) / (5)) (m := 6124895493223874) (e := -1) (by norm_num) (by norm_num [qpow2])
    (by norm_num [qpow2]) (by norm_num [qpow2]) (by norm_num [qpow2])]
  norm_num [qpow2]

/-- The power `pow(sigma/distance6, 12)`, correctly rounded. -/
theorem fl_pow12_6 : fl ((3062447746611937 / 2 ^ 52) ^ 12) = 704347065668697 / 2 ^ 56 := by
  rw [fl_eq_pos (q := (3062447746611937 / 2 ^ 52) ^ 12) (m := 5634776525349576) (e := -7) (by norm_num) (by norm_num [qpow2])
    (by norm_num [qpow2]) (by norm_num [qpow2]) (by norm_num [qpow2])]
  norm_num [qpow2]

/-- The power `pow(sigma/distance6, 6)`, correctly rounded. -/
theorem fl_pow6_6 : fl ((3062447746611937 / 2 ^ 52) ^ 6) = 3562076463236041 / 2 ^ 55 := by
  rw [fl_eq_pos (q := (3062447746611937 / 2 ^ 52) ^ 6) (m := 7124152926472082) (e := -4) (by norm_num) (by norm_num [qpow2])
    (by norm_num [qpow2]) (by norm_num [qpow2]) (by norm_num [qpow2])]
  norm_num [qpow2]

/-- The difference of the two powers for `distance6`. -/
theorem fl_diff6 : fl ((704347065668697 / 2 ^ 56) - (3562076463236041 / 2 ^ 55)) = -(6419805860803385 / 2 ^ 56) := by
  rw [fl_eq_neg (q := (704347065668697 / 2 ^ 56) - (3562076463236041 / 2 ^ 55)) (m := 6419805860803385) (e := -4) (by norm_num) (by norm_num [qpow2])
    (by norm_num [qpow2]) (by norm_num [qpow2]) (by norm_num [qpow2])]
  norm_num [qpow2]

/-- The final product: the potential at `distance6`. -/
theorem fl_v6 : fl ((137096736074275 / 2 ^ 114) * (-(6419805860803385 / 2 ^ 56))) = -(1563432813872093 / 2 ^ 121) := by
  rw [fl_eq_neg (q := (137096736074275 / 2 ^ 114) * (-(6419805860803385 / 2 ^ 56))) (m := 6253731255488372) (e := -71) (by norm_num) (by norm_num [qpow2])
    (by norm_num [qpow2]) (by norm_num [qpow2]) (by norm_num [qpow2])]
  norm_num [qpow2]

/-- The notebook reference value for `distance6` as a binary64 value. -/
theorem fl_ref6 : fl (-(5880980609909882 / 10 ^ 37)) = -(1563432813872093 / 2 ^ 121) := by
  rw [fl_eq_neg (q := -(5880980609909882 / 10 ^ 37)) (m := 6253731255488372) (e := -71) (by norm_num) (by norm_num [qpow2])
    (by norm_num [qpow2]) (by norm_num [qpow2]) (by norm_num [qpow2])]
  norm_num [qpow2]

/-- The value `pow(10, 21)` is exactly representable. -/
theorem fl_p21 : fl (10 ^ 21) = 1000000000000000000000 := by
  rw [fl_eq_pos (q := 10 ^ 21) (m := 7629394531250000) (e := 69) (by norm_num) (by norm_num [qpow2])
    (by norm_num [qpow2]) (by norm_num [qpow2]) (by norm_num [qpow2])]
  norm_num [qpow2]

/-- The minimum scaled by `10^21`. -/
theorem fl_scaled : fl ((-(8768200799301031 / 2 ^ 122)) * (1000000000000000000000)) = -(928369370643683 / 2 ^ 49) := by
  rw [fl_eq_neg (q := (-(8768200799301031 / 2 ^ 122)) * (1000000000000000000000)) (m := 7426954965149464) (e := 0) (by norm_num) (by norm_num [qpow2])
    (by norm_num [qpow2]) (by norm_num [qpow2]) (by norm_num [qpow2])]
  norm_num [qpow2]

/-- The map `fl` fixes the exactly representable value `1`. -/
theorem fl_one : fl 1 = 1 := by
  rw [fl_eq_pos (q := 1) (m := 4503599627370496) (e := 0) (by norm_num) (by norm_num [qpow2])
    (by norm_num [qpow2]) (by norm_num [qpow2]) (by norm_num [qpow2])]
  norm_num [qpow2]

/-- Value of the converted literal `epsilon`. -/
theorem eval_epsilon0 : epsilon0 = 2968772874362631 / 2 ^ 58 := by
  unfold epsilon0
  exact fl_eps0

/-- Value of the literal `sigma`. -/
theorem eval_sigma : sigma = 7656119366529843 / 2 ^ 51 := by
  unfold sigma
  exact fl_sigma_lit

/-- Value of the literal `distance1`. -/
theorem eval_distance1 : distance1 = 3 := by
  unfold distance1
  exact fl_d1_lit

/-- Value of the literal `distance2`. -/
theorem eval_distance2 : distance2 = 7656119366529843 / 2 ^ 51 := by
  unfold distance2
  exact fl_sigma_lit

/-- Value of the literal `distance3`. -/
theorem eval_distance3 : distance3 = 4278419646001971 / 2 ^ 50 := by
  unfold distance3
  exact fl_d3_lit

/-- Value of the literal `distance4`. -/
theorem eval_distance4 : distance4 = 4728779608739021 / 2 ^ 50 := by
  unfold distance4
  exact fl_d4_lit

/-- Value of the literal `distance5`. -/
theorem eval_distance5 : distance5 = 2589569785738035 / 2 ^ 49 := by
  unfold distance5
  exact fl_d5_lit

/-- Value of the literal `distance6`. -/
theorem eval_distance6 : distance6 = 5 := by
  unfold distance6
  exact fl_d6_lit

/-- The converted well depth `epsilon` in joules, as computed by the program. -/
theorem eval_epsilonJ : epsilonJ = 137096736074275 / 2 ^ 116 := by
  unfold epsilonJ convert_to_j fmul
  rw [eval_epsilon0, fl_convFactor, fl_p19, fl_conv_step1, fl_conv_step2]

/-- The value `v1` computed by the program. -/
theorem eval_v1 : v1 = 5201775389218679 / 2 ^ 118 := by
  unfold v1 lj fdiv fpow fsub fmul
  rw [eval_epsilonJ, eval_sigma, eval_distance1, fl_fourEps, fl_ratio1,
    fl_pow12_1, fl_pow6_1, fl_diff1, fl_v1]

/-- The value `v3` computed by the program. -/
theorem eval_v3 : v3 = -(8768200799301031 / 2 ^ 122) := by
  unfold v3 lj fdiv fpow fsub fmul
  rw [eval_epsilonJ, eval_sigma, eval_distance3, fl_fourEps, fl_ratio3,
    fl_pow12_3, fl_pow6_3, fl_diff3, fl_v3]

/-- The value `v4` computed by the program. -/
theorem eval_v4 : v4 = -(887199011143315 / 2 ^ 119) := by
  unfold v4 lj fdiv fpow fsub fmul
  rw [eval_epsilonJ, eval_sigma, eval_distance4, fl_fourEps, fl_ratio4,
    fl_pow12_4, fl_pow6_4, fl_diff4, fl_v4]

/-- The value `v5` computed by the program. -/
theorem eval_v5 : v5 = -(2394760018257231 / 2 ^ 121) := by
  unfold v5 lj fdiv fpow fsub fmul
  rw [eval_epsilonJ, eval_sigma, eval_distance5, fl_fourEps, fl_ratio5,
    fl_pow12_5, fl_pow6_5, fl_diff5, fl_v5]

/-- The value `v6` computed by the program. -/
theorem eval_v6 : v6 = -(1563432813872093 / 2 ^ 121) := by
  unfold v6 lj fdiv fpow fsub fmul
  rw [eval_epsilonJ, eval_sigma, eval_distance6, fl_fourEps, fl_ratio6,
    fl_pow12_6, fl_pow6_6, fl_diff6, fl_v6]

/-- The value `v2` computed by the program: the potential vanishes at
`distance2 = sigma` exactly, even in floating point. -/
theorem eval_v2 : v2 = 0 := by
  unfold v2 lj fdiv fpow fsub fmul
  rw [eval_epsilonJ, eval_sigma, eval_distance2,
    (by norm_num : (7656119366529843 / 2 ^ 51 : ℚ) / (7656119366529843 / 2 ^ 51) = 1), fl_one, one_pow, one_pow, fl_one,
    sub_self, fl_zero, mul_zero, fl_zero]

/-- The list of the six computed potentials. -/
theorem eval_vList : vList = [5201775389218679 / 2 ^ 118, 0, -(8768200799301031 / 2 ^ 122), -(887199011143315 / 2 ^ 119), -(2394760018257231 / 2 ^ 121), -(1563432813872093 / 2 ^ 121)] := by
  unfold vList
  rw [eval_v1, eval_v2, eval_v3, eval_v4, eval_v5, eval_v6]

/-- The scan of the six potentials finds `v3` at index `2`. -/
theorem compare_vList : compare_values vList = (-(8768200799301031 / 2 ^ 122), 2) := by
  rw [eval_vList]
  unfold compare_values
  simp only [compareAux]
  norm_num

/-- The minimum scaled by `10^21`, as the program computes it. -/
theorem eval_lowestScaled : lowestScaled = -(928369370643683 / 2 ^ 49) := by
  have h1 : (compare_values vList).1 = -(8768200799301031 / 2 ^ 122) := by
    rw [compare_vList]
  unfold lowestScaled fmul
  rw [h1, fl_p21, fl_scaled]

/-! ## General properties of the scanning loop `compare_values` -/

theorem foldl_min_le_init (l : List ℚ) : ∀ a : ℚ, l.foldl min a ≤ a := by
  induction l with
  | nil => intro a; exact le_refl a
  | cons v rest ih =>
    intro a
    calc rest.foldl min (min a v) ≤ min a v := ih (min a v)
      _ ≤ a := min_le_left a v

theorem foldl_min_le_mem (l : List ℚ) :
    ∀ a x : ℚ, x ∈ l → l.foldl min a ≤ x := by
  induction l with
  | nil => intro a x hx; exact absurd hx (List.not_mem_nil x)
  | cons v rest ih =>
    intro a x hx
    rcases List.mem_cons.mp hx with h | h
    · subst h
      calc rest.foldl min (min a x) ≤ min a x := foldl_min_le_init rest (min a x)
        _ ≤ x := min_le_right a x
    · exact ih (min a v) x h

theorem foldl_min_eq_init_or_mem (l : List ℚ) :
    ∀ a : ℚ, l.foldl min a = a ∨ l.foldl min a ∈ l := by
  induction l with
  | nil => intro a; exact Or.inl rfl
  | cons v rest ih =>
    intro a
    rcases ih (min a v) with h | h
    · rcases le_total a v with hav | hav
      · rw [List.foldl_cons, h, min_eq_left hav]
        exact Or.inl rfl
      · rw [List.foldl_cons, h, min_eq_right hav]
        exact Or.inr (List.mem_cons_self v rest)
    · exact Or.inr (List.mem_cons_of_mem v h)

theorem foldl_min_of_all_ge (l : List ℚ) :
    ∀ a : ℚ, (∀ x ∈ l, a ≤ x) → l.foldl min a = a := by
  induction l with
  | nil => intro a _; rfl
  | cons v rest ih =>
    intro a h
    rw [List.foldl_cons, min_eq_left (h v (List.mem_cons_self v rest))]
    exact ih a fun x hx => h x (List.mem_cons_of_mem v hx)

/-- The first component of the scan is the minimum of the initial candidate
and all list elements. -/
theorem compareAux_fst (l : List ℚ) :
    ∀ (sol : ℚ) (i n : ℕ), (compareAux l sol i n).1 = l.foldl min sol := by
  induction l with
  | nil => intro sol i n; rfl
  | cons v rest ih =>
    intro sol i n
    rw [List.foldl_cons]
    by_cases hv : v < sol
    · rw [compareAux, if_pos hv, ih, min_eq_right (le_of_lt hv)]
    · rw [compareAux, if_neg hv, ih, min_eq_left (not_lt.mp hv)]

/-- If no element beats the running candidate, the state is returned as is. -/
theorem compareAux_no_update (l : List ℚ) :
    ∀ (sol : ℚ) (i n : ℕ), (∀ x ∈ l, sol ≤ x) → compareAux l sol i n = (sol, i) := by
  induction l with
  | nil => intro sol i n _; rfl
  | cons v rest ih =>
    intro sol i n h
    rw [compareAux, if_neg (not_lt.mpr (h v (List.mem_cons_self v rest)))]
    exact ih sol i (n + 1) fun x hx => h x (List.mem_cons_of_mem v hx)

/-- If some element beats the running candidate, the scan returns the overall
minimum together with the offset of its first occurrence in the remaining
list. -/
theorem compareAux_found (l : List ℚ) :
    ∀ (sol : ℚ) (i n : ℕ), (∃ x ∈ l, x < sol) →
    ∃ j, j < l.length ∧ compareAux l sol i n = (l.foldl min sol, n + j) ∧
      l.get? j = some (l.foldl min sol) ∧
      ∀ k, k < j → l.get? k ≠ some (l.foldl min sol) := by
  induction l with
  | nil =>
    intro sol i n h
    simp at h
  | cons v rest ih =>
    intro sol i n h
    rw [List.foldl_cons]
    by_cases hv : v < sol
    · rw [compareAux, if_pos hv, min_eq_right (le_of_lt hv)]
      by_cases hrest : ∃ x ∈ rest, x < v
      · obtain ⟨j, hjlen, heq, hget, hfirst⟩ := ih v n (n + 1) hrest
        obtain ⟨x, hxmem, hxlt⟩ := hrest
        have hmlt : rest.foldl min v < v :=
          lt_of_le_of_lt (foldl_min_le_mem rest v x hxmem) hxlt
        refine ⟨j + 1, by simpa using Nat.succ_lt_succ hjlen, ?_, ?_, ?_⟩
        · rw [heq]
          congr 1
          omega
        · simpa using hget
        · intro k hk
          cases k with
          | zero =>
            simp only [List.get?]
            intro hcon
            rw [Option.some_inj] at hcon
            exact absurd hmlt (not_lt.mpr (le_of_eq hcon))
          | succ k =>
            simp only [List.get?]
            exact hfirst k (by omega)
      · push_neg at hrest
        have hall : ∀ x ∈ rest, v ≤ x := hrest
        rw [compareAux_no_update rest v n (n + 1) hall, foldl_min_of_all_ge rest v hall]
        exact ⟨0, by simp, by simp, by simp [List.get?], by omega⟩
    · rw [compareAux, if_neg hv, min_eq_left (not_lt.mp hv)]
      have hrest : ∃ x ∈ rest, x < sol := by
        obtain ⟨x, hxmem, hxlt⟩ := h
        rcases List.mem_cons.mp hxmem with hcase | hcase
        · subst hcase
          exact absurd hxlt hv
        · exact ⟨x, hcase, hxlt⟩
      obtain ⟨j, hjlen, heq, hget, hfirst⟩ := ih sol i (n + 1) hrest
      obtain ⟨x, hxmem, hxlt⟩ := hrest
      have hmlt : rest.foldl min sol < v :=
        lt_of_le_of_lt (foldl_min_le_mem rest sol x hxmem)
          (lt_of_lt_of_le hxlt (not_lt.mp hv))
      refine ⟨j + 1, by simpa using Nat.succ_lt_succ hjlen, ?_, ?_, ?_⟩
      · rw [heq]
        congr 1
        omega
      · simpa using hget
      · intro k hk
        cases k with
        | zero =>
          simp only [List.get?]
          intro hcon
          rw [Option.some_inj] at hcon
          exact absurd hmlt (not_lt.mpr (le_of_eq hcon))
        | succ k =>
          simp only [List.get?]
          exact hfirst k (by omega)
/-- Binary64 value of the decimal `1.6021766340000001e-19`, the shortest
decimal denoting the double actually produced by `convert_to_j(1.0)`. -/
theorem fl_c5_shortest : fl (16021766340000001 / 10 ^ 35) = 1663795340707221 / 2 ^ 113 := by
  rw [fl_eq_pos (q := 16021766340000001 / 10 ^ 35) (m := 6655181362828884) (e := -63)
    (by norm_num) (by norm_num [qpow2]) (by norm_num [qpow2]) (by norm_num [qpow2])
    (by norm_num [qpow2])]
  norm_num [qpow2]

/-! ## The claims -/

/-- C1.  End-to-end scenario: with `epsilon = 0.0103` converted to joules and
`sigma = 3.40`, `lennard_jones` at the six distances produces exactly the six
binary64 reference values of the notebook, and `compare_values` on that
sequence returns the pair `(-1.6491152810326125e-21, 2)`. -/
theorem scenario_end_to_end :
    lennard_jones epsilonJ sigma distance1 = some (fl (15653523415738785 / 10 ^ 36)) ∧
    lennard_jones epsilonJ sigma distance2 = some 0 ∧
    lennard_jones epsilonJ sigma distance3 = some (fl (-(16491152810326125 / 10 ^ 37))) ∧
    lennard_jones epsilonJ sigma distance4 = some (fl (-(13349087048372307 / 10 ^ 37))) ∧
    lennard_jones epsilonJ sigma distance5 = some (fl (-(900808599371665 / 10 ^ 36))) ∧
    lennard_jones epsilonJ sigma distance6 = some (fl (-(5880980609909882 / 10 ^ 37))) ∧
    compare_values vList = (fl (-(16491152810326125 / 10 ^ 37)), 2) := by
  refine ⟨?_, ?_, ?_, ?_, ?_, ?_, ?_⟩
  · unfold lennard_jones
    rw [if_neg (by rw [eval_distance1]; norm_num), fl_ref1]
    show some v1 = _
    rw [eval_v1]
  · unfold lennard_jones
    rw [if_neg (by rw [eval_distance2]; norm_num)]
    show some v2 = _
    rw [eval_v2]
  · unfold lennard_jones
    rw [if_neg (by rw [eval_distance3]; norm_num), fl_ref3]
    show some v3 = _
    rw [eval_v3]
  · unfold lennard_jones
    rw [if_neg (by rw [eval_distance4]; norm_num), fl_ref4]
    show some v4 = _
    rw [eval_v4]
  · unfold lennard_jones
    rw [if_neg (by rw [eval_distance5]; norm_num), fl_ref5]
    show some v5 = _
    rw [eval_v5]
  · unfold lennard_jones
    rw [if_neg (by rw [eval_distance6]; norm_num), fl_ref6]
    show some v6 = _
    rw [eval_v6]
  · rw [fl_ref3, compare_vList]

/-- C2.  Minimum-finder quirk: on a list of strictly positive values
`compare_values` returns `(0, 0)`, and `0` is not even a member of the list,
so the returned value is not the true minimum. -/
theorem compare_values_all_pos (l : List ℚ) (h : ∀ x ∈ l, 0 < x) :
    compare_values l = (0, 0) ∧ (0 : ℚ) ∉ l := by
  constructor
  · unfold compare_values
    exact compareAux_no_update l 0 0 0 fun x hx => le_of_lt (h x hx)
  · intro hmem
    exact lt_irrefl 0 (h 0 hmem)

theorem compare_values_all_pos_witness :
    (∀ x ∈ [(1 : ℚ), 2], 0 < x) ∧
      (compare_values [(1 : ℚ), 2] = (0, 0) ∧ (0 : ℚ) ∉ [(1 : ℚ), 2]) :=
  ⟨by decide, compare_values_all_pos [(1 : ℚ), 2] (by decide)⟩

/-- C3 counterexample.  On the list `[1]` the scanner returns `(0, 0)`, but
the smallest value of that list is `1` (indeed `0` is not a member at all),
so `compare_values` does not return the smallest value of every sequence. -/
theorem compare_values_contract_cex :
    compare_values [(1 : ℚ)] = (0, 0) ∧ (0 : ℚ) ∉ [(1 : ℚ)] ∧
      (1 : ℚ) ∈ [(1 : ℚ)] ∧ ∀ x ∈ [(1 : ℚ)], (1 : ℚ) ≤ x := by
  refine ⟨by decide, by decide, by decide, by decide⟩

/-- C3 amended.  For every sequence containing at least one strictly negative
value, `compare_values` returns the smallest value of the sequence together
with the zero-based index of its first occurrence. -/
theorem compare_values_contract_amended (l : List ℚ) (h : ∃ x ∈ l, x < 0) :
    (compare_values l).1 ∈ l ∧ (∀ x ∈ l, (compare_values l).1 ≤ x) ∧
    l.get? (compare_values l).2 = some (compare_values l).1 ∧
    ∀ k, k < (compare_values l).2 → l.get? k ≠ some (compare_values l).1 := by
  obtain ⟨j, hjlen, heq, hget, hfirst⟩ := compareAux_found l 0 0 0 h
  rw [Nat.zero_add] at heq
  unfold compare_values
  rw [heq]
  refine ⟨?_, ?_, ?_, ?_⟩
  · rcases foldl_min_eq_init_or_mem l 0 with hc | hc
    · obtain ⟨x, hxmem, hxlt⟩ := h
      have hle := foldl_min_le_mem l 0 x hxmem
      rw [hc] at hle
      linarith
    · exact hc
  · intro x hx
    exact foldl_min_le_mem l 0 x hx
  · exact hget
  · exact hfirst

theorem compare_values_contract_amended_witness :
    (∃ x ∈ [(-1 : ℚ)], x < 0) ∧
      ((compare_values [(-1 : ℚ)]).1 ∈ [(-1 : ℚ)] ∧
       (∀ x ∈ [(-1 : ℚ)], (compare_values [(-1 : ℚ)]).1 ≤ x) ∧
       [(-1 : ℚ)].get? (compare_values [(-1 : ℚ)]).2 = some (compare_values [(-1 : ℚ)]).1 ∧
       ∀ k, k < (compare_values [(-1 : ℚ)]).2 →
         [(-1 : ℚ)].get? k ≠ some (compare_values [(-1 : ℚ)]).1) :=
  ⟨by decide, compare_values_contract_amended [(-1 : ℚ)] (by decide)⟩

/-- C4.  Formatting step: the found minimum scaled by `10^21` rounds to the
two-decimal value `-1.65` (the exact half-even decimal rounding of the scaled
value is `-165/100`), and the value the program prints is the binary64
number denoted by `-1.65`. -/
theorem rounding_step :
    rne (lowestScaled * 100) = -165 ∧ lowestRounded = fl (-165 / 100) := by
  have hrne : rne (lowestScaled * 100) = -165 := by
    rw [eval_lowestScaled]
    exact rne_eq (by norm_num) (by norm_num)
  refine ⟨hrne, ?_⟩
  unfold lowestRounded py_round2
  rw [hrne]
  norm_num

/-- C5 counterexample.  `convert_to_j(1.0)` is not the binary64 value of the
decimal `1.602176634e-19`: the two successive rounded multiplications land
one ulp above it. -/
theorem convert_to_j_one_cex :
    convert_to_j (fl 1) ≠ fl (1602176634 / 10 ^ 28) := by
  unfold convert_to_j fmul
  rw [fl_one, fl_convFactor, one_mul, fl_conv_idem, fl_p19, fl_conv_one2, fl_c5_direct]
  norm_num

/-- C5 amended.  Under the double-precision semantics of the program
`convert_to_j(1.0)` returns exactly the binary64 value
`1.6021766340000001e-19`, one ulp above the binary64 value nearest
`1.602176634e-19`, because the factor is applied as two separately rounded
multiplications (`value * 1.602176634`, then `* pow(10, -19)`). -/
theorem convert_to_j_one_amended :
    convert_to_j (fl 1) = fl (16021766340000001 / 10 ^ 35) ∧
    convert_to_j (fl 1) ≠ fl (1602176634 / 10 ^ 28) := by
  constructor
  · unfold convert_to_j fmul
    rw [fl_one, fl_convFactor, one_mul, fl_conv_idem, fl_p19, fl_conv_one2, fl_c5_shortest]
  · unfold convert_to_j fmul
    rw [fl_one, fl_convFactor, one_mul, fl_conv_idem, fl_p19, fl_conv_one2, fl_c5_direct]
    norm_num

/-- C6.  The potential vanishes at the crossing distance: for every `epsilon`
and every `sigma > 0`, `lennard_jones epsilon sigma sigma = 0`, exactly, even
in binary64 arithmetic (since `sigma/sigma` rounds to `1` and
`1^12 - 1^6 = 0`). -/
theorem lennard_jones_at_sigma (ε s : ℚ) (h : 0 < s) :
    lennard_jones ε s s = some 0 := by
  have hne : s ≠ 0 := ne_of_gt h
  unfold lennard_jones
  rw [if_neg hne]
  unfold lj fdiv fpow fsub fmul
  rw [div_self hne, fl_one, one_pow, one_pow, fl_one, sub_self, fl_zero, mul_zero, fl_zero]

theorem lennard_jones_at_sigma_witness :
    (0 : ℚ) < 2 ∧ lennard_jones 5 2 2 = some 0 :=
  ⟨by decide, lennard_jones_at_sigma 5 2 (by decide)⟩

/-- C7.  Scale invariance: the evaluator depends on `sigma` and `distance`
only through their exact quotient, so scaling both arguments by any positive
`k` leaves the result unchanged. -/
theorem lennard_jones_scale_invariance (ε s r k : ℚ) (_hs : 0 < s) (hr : 0 < r) (hk : 0 < k) :
    lennard_jones ε s r = lennard_jones ε (k * s) (k * r) := by
  have hrne : r ≠ 0 := ne_of_gt hr
  have hkne : k ≠ 0 := ne_of_gt hk
  have hkr : k * r ≠ 0 := mul_ne_zero hkne hrne
  have hratio : k * s / (k * r) = s / r := mul_div_mul_left s r hkne
  unfold lennard_jones
  rw [if_neg hrne, if_neg hkr]
  unfold lj fdiv
  rw [hratio]

theorem lennard_jones_scale_invariance_witness :
    (0 : ℚ) < 1 ∧ (0 : ℚ) < 2 ∧ (0 : ℚ) < 3 ∧
      lennard_jones 1 1 2 = lennard_jones 1 (3 * 1) (3 * 2) :=
  ⟨by decide, by decide, by decide,
    lennard_jones_scale_invariance 1 1 2 3 (by decide) (by decide) (by decide)⟩

/-- C8.  Safety: whenever the distance argument is strictly positive — as all
six fixed distances are — the division inside `lennard_jones` cannot divide
by zero, so the failure branch (`none`) is unreachable and the evaluator
returns a value. -/
theorem lennard_jones_pos_distance_safe (ε s d : ℚ) (h : 0 < d) :
    ∃ v, lennard_jones ε s d = some v := by
  refine ⟨lj ε s d, ?_⟩
  unfold lennard_jones
  rw [if_neg (ne_of_gt h)]

theorem lennard_jones_pos_distance_safe_witness :
    (0 : ℚ) < 3 ∧ ∃ v, lennard_jones 1 2 3 = some v :=
  ⟨by decide, lennard_jones_pos_distance_safe 1 2 3 (by decide)⟩

/-- C9.  Implicit characterization of the scanner: the value returned by
`compare_values` is always the minimum of `0` and all elements of the list,
and on the empty list it returns `(0, 0)` without error. -/
theorem compare_values_fst_characterization :
    (∀ l : List ℚ, (compare_values l).1 = l.foldl min 0) ∧
    compare_values ([] : List ℚ) = (0, 0) := by
  constructor
  · intro l
    unfold compare_values
    exact compareAux_fst l 0 0 0
  · rfl

/-- C10.  Index invariant: `compare_values` returns either `(0, 0)`, or a
pair `(sol, i)` with `i` in range, the element at `i` equal to `sol`, `sol`
strictly negative, and `i` the first index at which `sol` occurs. -/
theorem compare_values_invariant (l : List ℚ) :
    ((compare_values l).1 = 0 ∧ (compare_values l).2 = 0) ∨
    ((compare_values l).2 < l.length ∧
     l.get? (compare_values l).2 = some (compare_values l).1 ∧
     (compare_values l).1 < 0 ∧
     ∀ k, k < (compare_values l).2 → l.get? k ≠ some (compare_values l).1) := by
  by_cases h : ∃ x ∈ l, x < 0
  · right
    obtain ⟨j, hjlen, heq, hget, hfirst⟩ := compareAux_found l 0 0 0 h
    rw [Nat.zero_add] at heq
    obtain ⟨x, hxmem, hxlt⟩ := h
    have hmin : l.foldl min 0 < 0 :=
      lt_of_le_of_lt (foldl_min_le_mem l 0 x hxmem) hxlt
    unfold compare_values
    rw [heq]
    exact ⟨hjlen, hget, hmin, hfirst⟩
  · left
    push_neg at h
    unfold compare_values
    rw [compareAux_no_update l 0 0 0 h]
    exact ⟨rfl, rfl⟩

end LJNotebook
